import Mathlib

/-!
Verification of the constrained-dynamics core of the catapult-simulator
repository.  The repository consists of patch scripts that rewrite parts of
a constrained-rigid-body solver (a trebuchet mechanism); the definitive text
of the rewritten fragments is embedded verbatim in the patch scripts
(fix_physics_final.py, fix_physics_clean.py, fix_sling.py, fix_solver.py,
fix_derivatives.py, fix_derivatives_v2.py).  This file shallowly embeds
those fragments: scalars of the program become exact rationals (or reals
where the program takes square roots or trigonometric functions), JS arrays
become lists or index functions, and the NaN/Infinity behaviour of the one
float-sensitive step is modelled by an explicit sum type.
-/

namespace Catapult

/-! ## The Schur solver (from the replacement body in fix_physics_final.py)

The rewritten solveSchur receives, from its enclosing scope in
derivatives.ts: dimQ, dimC, the Jacobian rows J, Minv, the force vector Q,
the bias vector gamma, the timestep dtRef, the effective mass m_p, the
constant N and PHYSICS_CONSTANTS.KKT_REGULARIZATION_BASE.  These are
bundled in a parameter structure.  The square root used by the
equilibration step and the dense linear solver it calls are passed as
function parameters, since every property proved below holds for every
choice of those two functions. -/

structure SchurParams where
  dimQ : ℕ
  dimC : ℕ
  N : ℕ
  J : ℕ → ℕ → ℚ
  Minv : ℕ → ℚ
  Q : ℕ → ℚ
  gamma : ℕ → ℚ
  dtRef : ℚ
  m_p : ℚ
  kktBase : ℚ

structure SchurResult where
  q_ddot : List ℚ
  lambda : List ℚ
deriving DecidableEq, Repr

/-- Source: mask.map((m, i) => (m ? i : -1)).filter((i) => i !== -1) -/
def activeIdx (mask : List Bool) : List ℕ :=
  (List.range mask.length).filter (fun i => mask.getD i false)

/-- Source (fix_physics_final.py): const compliance = (4.0 * dtRef * dtRef) / m_p -/
def compliance (p : SchurParams) : ℚ := 4 * p.dtRef * p.dtRef / p.m_p

/-- Source (fix_physics_final.py): eps = PHYSICS_CONSTANTS.KKT_REGULARIZATION_BASE * N -/
def epsReg (p : SchurParams) : ℚ := p.kktBase * p.N

/-- Source: the test (idxA_S < N + 2) guarding the compliance addition. -/
def softFlag (p : SchurParams) (c : ℕ) : Bool := decide (c < p.N + 2)

/-- Source: for (let j = 0; j < dimQ; j++) sum += Ji[j] * Minv[j] * Jk[j];
S[i][k] = sum. -/
def assembleS (p : SchurParams) (aIdx : List ℕ) (i k : ℕ) : ℚ :=
  ∑ j in Finset.range p.dimQ,
    p.J (aIdx.getD i 0) j * p.Minv j * p.J (aIdx.getD k 0) j

/-- Source: if (idxA_S < N + 2) S[i][i] += compliance; S[i][i] += eps.
Only the diagonal entries change. -/
def Sreg (p : SchurParams) (aIdx : List ℕ) (i k : ℕ) : ℚ :=
  assembleS p aIdx i k +
    (if i = k then
      (if softFlag p (aIdx.getD i 0) then compliance p else 0) + epsReg p
    else 0)

/-- Source: D[i] = 1.0 / Math.sqrt(Math.max(S[i][i], 1e-16)).  The square
root is a parameter of the embedding. -/
def Dscale (p : SchurParams) (sqrtQ : ℚ → ℚ) (aIdx : List ℕ) (i : ℕ) : ℚ :=
  1 / sqrtQ (max (Sreg p aIdx i i) (1 / 10 ^ 16))

/-- Source: S[i][j] *= D[i] * D[j]. -/
def Sscaled (p : SchurParams) (sqrtQ : ℚ → ℚ) (aIdx : List ℕ) (i k : ℕ) : ℚ :=
  Sreg p aIdx i k * (Dscale p sqrtQ aIdx i * Dscale p sqrtQ aIdx k)

/-- Source: let jm_q = 0; for (let j ...) jm_q += Ji[j] * Minv[j] * Q[j];
rhs[i] = jm_q - gamma[idxA_S]. -/
def rhsVec (p : SchurParams) (aIdx : List ℕ) (i : ℕ) : ℚ :=
  (∑ j in Finset.range p.dimQ, p.J (aIdx.getD i 0) j * p.Minv j * p.Q j) -
    p.gamma (aIdx.getD i 0)

/-- Source: the whole replacement body of solveSchur in fix_physics_final.py.
Over exact rationals the isNaN test in
solLambdaRaw.map((val, i) => (isNaN(val) ? 0 : val * D[i]))
is always false, so the un-scaling keeps val * D[i]; the float-level NaN
handling of that line is modelled separately (see JSNum below). -/
def solveSchur (p : SchurParams) (sqrtQ : ℚ → ℚ)
    (linsolve : List (List ℚ) → List ℚ → List ℚ) (mask : List Bool) :
    SchurResult :=
  let aIdx := activeIdx mask
  let m := aIdx.length
  if m = 0 then
    { q_ddot := (List.range p.dimQ).map (fun i => p.Q i * p.Minv i),
      lambda := List.replicate p.dimC 0 }
  else
    let Smat := (List.range m).map (fun i =>
      (List.range m).map (fun k => Sscaled p sqrtQ aIdx i k))
    let rhsS := (List.range m).map (fun i =>
      rhsVec p aIdx i * Dscale p sqrtQ aIdx i)
    let raw := linsolve Smat rhsS
    let solLambda := (List.range m).map (fun i =>
      raw.getD i 0 * Dscale p sqrtQ aIdx i)
    let fullLambda := (List.range p.dimC).map (fun c =>
      if mask.getD c false then solLambda.getD (aIdx.indexOf c) 0 else 0)
    let q_ddot := (List.range p.dimQ).map (fun j =>
      p.Minv j * (p.Q j -
        ∑ i in Finset.range p.dimC,
          (if mask.getD i false then p.J i j * fullLambda.getD i 0 else 0)))
    { q_ddot := q_ddot, lambda := fullLambda }

/-! ## Constraint kinds

The constraint layout is written out in the active-array rebuilt by
fix_sling.py: entries 0 and 1 are the counterweight hinge, entries 2 and 3
the two sling (cable) sides, entry 4 the projectile/bag contact, entry 5
the ground/rail contact. -/

/-- Cable-kind constraints are the two sling sides, indices 2 and 3
(layout from the active array in fix_sling.py). -/
def isCable (c : ℕ) : Bool := c = 2 || c = 3

/-- Concrete parameter set used by witnesses: dimQ 1, dimC 6, N 2, zero
Jacobian, zero forces, dt 1, m_p 1, kktBase 0. -/
def pEx : SchurParams :=
  ⟨1, 6, 2, fun _ _ => 0, fun _ => 0, fun _ => 0, fun _ => 0, 1, 1, 0⟩

/-- Claim C1: with zero active constraints the Schur solver returns
immediately with q_ddot the elementwise product of Minv and Q and lambda
the all-zero vector of length dimC. -/
theorem schur_m_zero (p : SchurParams) (sqrtQ : ℚ → ℚ)
    (linsolve : List (List ℚ) → List ℚ → List ℚ) (mask : List Bool)
    (h : activeIdx mask = []) :
    solveSchur p sqrtQ linsolve mask =
      { q_ddot := (List.range p.dimQ).map (fun i => p.Q i * p.Minv i),
        lambda := List.replicate p.dimC 0 } := by
  unfold solveSchur
  simp [h]

/-- Claim C1 witness: an all-false mask on a concrete parameter set
selects zero constraints and produces Minv-scaled forces and a zero
lambda of length dimC = 3. -/
theorem schur_m_zero_witness :
    activeIdx [false, false] = [] ∧
    solveSchur ⟨2, 3, 1, fun _ _ => 0, fun i => (i : ℚ) + 1,
        fun i => (i : ℚ) + 2, fun _ => 0, 1, 1, 0⟩
      (fun x => x) (fun _ _ => []) [false, false] =
      { q_ddot := [2, 6], lambda := [0, 0, 0] } := by
  refine ⟨by decide, ?_⟩
  rw [schur_m_zero _ _ _ _ (by decide)]
  norm_num [List.range_succ, List.replicate]

/-- Claim C2: the reduced matrix is symmetric immediately after assembly,
after the diagonal compliance/epsilon additions, and after the
equilibration scaling, for every active mask, state and square root. -/
theorem schur_S_symmetric (p : SchurParams) (sqrtQ : ℚ → ℚ)
    (mask : List Bool) (i k : ℕ) :
    assembleS p (activeIdx mask) i k = assembleS p (activeIdx mask) k i ∧
    Sreg p (activeIdx mask) i k = Sreg p (activeIdx mask) k i ∧
    Sscaled p sqrtQ (activeIdx mask) i k =
      Sscaled p sqrtQ (activeIdx mask) k i := by
  have h1 : assembleS p (activeIdx mask) i k =
      assembleS p (activeIdx mask) k i := by
    unfold assembleS
    exact Finset.sum_congr rfl (fun j _ => by ring)
  have h2 : Sreg p (activeIdx mask) i k = Sreg p (activeIdx mask) k i := by
    unfold Sreg
    rcases eq_or_ne i k with h | h
    · subst h; rfl
    · simp [h, h.symm, h1]
  refine ⟨h1, h2, ?_⟩
  unfold Sscaled
  rw [h2]; ring

/-- Claim C9 counterexample: it is not the case that non-cable constraints
are spared the compliance addition: with N = 2, an active hinge constraint
(index 0, not a cable) gets Sreg = assembleS + compliance + eps, not
assembleS + eps. -/
theorem compliance_hits_hinge_cex :
    ¬ (∀ (p : SchurParams) (aIdx : List ℕ) (i : ℕ),
        isCable (aIdx.getD i 0) = false →
        Sreg p aIdx i i = assembleS p aIdx i i + epsReg p) := by
  intro h
  have h0 := h pEx [0] 0 (by decide)
  rw [show Sreg pEx [0] 0 0 = 4 by
        simp [Sreg, assembleS, compliance, epsReg, softFlag, pEx,
          Finset.sum_range_one],
      show assembleS pEx [0] 0 0 + epsReg pEx = 0 by
        simp [assembleS, epsReg, pEx, Finset.sum_range_one]] at h0
  exact absurd h0 (by norm_num)

/-- Claim C9 (amended): a fixed epsilon is added to every diagonal entry
and off-diagonal entries are left unchanged; the compliance term is added
to the diagonal entry of every active constraint whose index is below
N + 2 — a prefix of the constraint list that always contains the hinge
constraints 0 and 1 and contains the cable constraint 2 exactly when
1 <= N and the cable constraint 3 exactly when 2 <= N. -/
theorem schur_diagonal_regularization (p : SchurParams) (aIdx : List ℕ)
    (i k : ℕ) (hik : i ≠ k) :
    Sreg p aIdx i i = assembleS p aIdx i i +
      ((if softFlag p (aIdx.getD i 0) then compliance p else 0) + epsReg p) ∧
    Sreg p aIdx i k = assembleS p aIdx i k ∧
    softFlag p 0 = true ∧ softFlag p 1 = true ∧
    (softFlag p 2 = true ↔ 1 ≤ p.N) ∧ (softFlag p 3 = true ↔ 2 ≤ p.N) := by
  refine ⟨?_, ?_, ?_, ?_, ?_, ?_⟩
  · unfold Sreg; simp
  · unfold Sreg; simp [hik]
  · simp [softFlag]
  · simp [softFlag]
  · simp [softFlag]; omega
  · simp [softFlag]; omega

/-- Claim C9 amended witness: at the concrete parameter set pEx (N = 2)
with the hinge constraint 0 active alone, its diagonal entry is
0 + (compliance + eps) = 4. -/
theorem schur_diagonal_regularization_witness :
    Sreg pEx [0] 0 0 = 4 := by
  have h := (schur_diagonal_regularization pEx [0] 0 1 (by decide)).1
  rw [h]
  simp [assembleS, compliance, epsReg, softFlag, pEx, Finset.sum_range_one]

/-! ## Float-level handling of the un-scaling step (fix_physics_final.py)

Source line:
const solLambda = solLambdaRaw.map((val, i) => (isNaN(val) ? 0 : val * D[i]))
The raw output of the dense solve is float-valued; its possibly non-finite
entries are modelled by an explicit sum type, with the IEEE rules for the
product of such a value with a finite scale factor. -/

inductive JSNum where
  | val (q : ℚ)
  | nan
  | posInf
  | negInf
deriving DecidableEq, Repr

/-- Truth value of the JavaScript isNaN test on a number. -/
def JSNum.isNaN : JSNum → Bool
  | nan => true
  | _ => false

/-- A JSNum is finite when it carries an actual rational value. -/
def JSNum.isFinite : JSNum → Bool
  | val _ => true
  | _ => false

/-- IEEE multiplication of a possibly non-finite value by a finite scalar:
infinity times a positive scalar keeps its sign, times a negative scalar
flips it, times zero gives NaN; NaN propagates. -/
def JSNum.mulFin : JSNum → ℚ → JSNum
  | val q, d => val (q * d)
  | nan, _ => nan
  | posInf, d => if 0 < d then posInf else if d < 0 then negInf else nan
  | negInf, d => if 0 < d then negInf else if d < 0 then posInf else nan

/-- Source: solLambdaRaw.map((val, i) => (isNaN(val) ? 0 : val * D[i])). -/
def unscaleLambda (raw : List JSNum) (D : List ℚ) : List JSNum :=
  (raw.zip D).map (fun vd =>
    if vd.1.isNaN then JSNum.val 0 else vd.1.mulFin vd.2)

/-- Claim C3 counterexample: the un-scaling step does not replace every
non-finite solve output by zero — a positive infinity passes straight
through (only the isNaN test guards the entry), so the returned entry is
not finite. -/
theorem unscale_keeps_infinity_cex :
    ¬ (∀ (raw : List JSNum) (D : List ℚ),
        ∀ v ∈ unscaleLambda raw D, v.isFinite = true) := by
  intro h
  have hmem : JSNum.posInf ∈ unscaleLambda [JSNum.posInf] [1] := by
    simp [unscaleLambda, JSNum.mulFin, JSNum.isNaN]
  have := h [JSNum.posInf] [1] JSNum.posInf hmem
  exact absurd this (by simp [JSNum.isFinite])

/-- Claim C3 (amended): the un-scaling step replaces every NaN produced by
the dense solve with zero, and (for the positive scale factors produced by
the equilibration step) no returned entry is NaN; infinities are not
filtered and pass through scaled. -/
theorem unscale_zeroes_nan (raw : List JSNum) (D : List ℚ)
    (hD : ∀ d ∈ D, 0 < d) :
    (∀ i, i < raw.length → i < D.length →
      (raw.getD i JSNum.nan).isNaN = true →
      (unscaleLambda raw D).getD i JSNum.nan = JSNum.val 0) ∧
    (∀ v ∈ unscaleLambda raw D, v.isNaN = false) := by
  constructor
  · intro i hir hid hnan
    have hlen : i < (raw.zip D).length := by
      rw [List.length_zip]; omega
    have hz : (raw.zip D).get ⟨i, hlen⟩ = (raw.get ⟨i, hir⟩, D.get ⟨i, hid⟩) := by
      simp [List.getElem_zip]
    have : (unscaleLambda raw D).getD i JSNum.nan =
        (fun vd : JSNum × ℚ =>
          if vd.1.isNaN then JSNum.val 0 else vd.1.mulFin vd.2)
          ((raw.zip D).get ⟨i, hlen⟩) := by
      unfold unscaleLambda
      rw [List.getD_eq_getElem _ _ (by simpa using hlen)]
      simp
    rw [this, hz]
    have hr : raw.getD i JSNum.nan = raw.get ⟨i, hir⟩ :=
      List.getD_eq_getElem _ _ hir
    rw [hr] at hnan
    exact if_pos hnan
  · intro v hv
    unfold unscaleLambda at hv
    obtain ⟨vd, hvd, hfv⟩ := List.mem_map.mp hv
    obtain ⟨v1, d1⟩ := vd
    have hdpos : 0 < d1 := hD d1 (List.of_mem_zip hvd).2
    subst hfv
    cases v1 with
    | val q => rfl
    | nan => rfl
    | posInf => simp [JSNum.mulFin, JSNum.isNaN, hdpos]
    | negInf => simp [JSNum.mulFin, JSNum.isNaN, hdpos]

/-- Claim C3 amended witness: with raw solve output [NaN, 3] and positive
scales [1, 2], the first returned entry is zero. -/
theorem unscale_zeroes_nan_witness :
    (unscaleLambda [JSNum.nan, JSNum.val 3] [1, 2]).getD 0 JSNum.nan =
      JSNum.val 0 := by
  have hd : ∀ d ∈ [(1 : ℚ), 2], 0 < d := by
    intro d hdm
    rcases List.mem_cons.mp hdm with h | h
    · rw [h]; norm_num
    · rw [List.mem_singleton.mp h]; norm_num
  exact (unscale_zeroes_nan _ _ hd).1 0 (by decide) (by decide) (by decide)

/-! ## Active-set selector (from the replacement lines in fix_sling.py)

Source lines rebuilt by fix_sling.py:
  const distL = Math.sqrt(DL[0]**2 + DL[1]**2)
  const distR = Math.sqrt(DR[0]**2 + DR[1]**2)
  const active = [
    true, true,                                            // CW Hinge
    distL > trebuchetProps.slingLength || x?.[12] < 0,     // Sling L
    distR > trebuchetProps.slingLength || x?.[13] < 0,     // Sling R
    !wasReleased,                                          // Projectile/Bag
    onRail                                                 // Ground
  ]
The separation vectors DL, DR, the velocities x[12], x[13] and the onRail
boolean are produced earlier in derivatives.ts; here they are inputs. -/

structure SelInput where
  DL0 : ℝ
  DL1 : ℝ
  DR0 : ℝ
  DR1 : ℝ
  slingLength : ℝ
  v12 : ℝ
  v13 : ℝ
  wasReleased : Bool
  onRail : Prop

/-- Source: const distL = Math.sqrt(DL[0]**2 + DL[1]**2). -/
noncomputable def distL (s : SelInput) : ℝ := Real.sqrt (s.DL0 ^ 2 + s.DL1 ^ 2)

/-- Source: const distR = Math.sqrt(DR[0]**2 + DR[1]**2). -/
noncomputable def distR (s : SelInput) : ℝ := Real.sqrt (s.DR0 ^ 2 + s.DR1 ^ 2)

/-- Source: the rebuilt active array of fix_sling.py. -/
noncomputable def activeMask (s : SelInput) : List Prop :=
  [True, True,
   distL s > s.slingLength ∨ s.v12 < 0,
   distR s > s.slingLength ∨ s.v13 < 0,
   s.wasReleased = false,
   s.onRail]

/-- Selector input with the left cable exactly at its rest length and zero
separation velocity. -/
def sEq : SelInput := ⟨1, 0, 0, 0, 1, 0, 0, false, True⟩

/-- Claim C4 counterexample: at exact equality (separation distance equal
to the rest length) with non-negative separation velocity, the code marks
the cable inactive — the taut test is strict, not inclusive. -/
theorem sling_taut_equality_cex :
    ¬ (activeMask sEq).getD 2 False ∧ distL sEq = sEq.slingLength ∧
      sEq.v12 = 0 := by
  have hd : distL sEq = 1 := by
    have h1 : distL sEq = Real.sqrt ((1 : ℝ) ^ 2 + (0 : ℝ) ^ 2) := rfl
    rw [h1]
    norm_num
  refine ⟨?_, by rw [hd]; rfl, rfl⟩
  intro hact
  have h2 : distL sEq > sEq.slingLength ∨ sEq.v12 < 0 := by
    simpa [activeMask] using hact
  have hl : sEq.slingLength = 1 := rfl
  have hv : sEq.v12 = 0 := rfl
  rw [hd, hl, hv] at h2
  rcases h2 with h2 | h2 <;> norm_num at h2

/-- Claim C4 (amended): a cable-side constraint is active exactly when the
separation distance strictly exceeds the rest length or the separation
velocity is negative; at exact equality with non-negative velocity it is
inactive.  Stated with squared distances on both sling sides. -/
theorem sling_active_iff_sq (s : SelInput) (h : 0 ≤ s.slingLength) :
    ((activeMask s).getD 2 False ↔
      s.slingLength ^ 2 < s.DL0 ^ 2 + s.DL1 ^ 2 ∨ s.v12 < 0) ∧
    ((activeMask s).getD 3 False ↔
      s.slingLength ^ 2 < s.DR0 ^ 2 + s.DR1 ^ 2 ∨ s.v13 < 0) := by
  have hL : distL s > s.slingLength ↔
      s.slingLength ^ 2 < s.DL0 ^ 2 + s.DL1 ^ 2 := by
    unfold distL
    exact Real.lt_sqrt h
  have hR : distR s > s.slingLength ↔
      s.slingLength ^ 2 < s.DR0 ^ 2 + s.DR1 ^ 2 := by
    unfold distR
    exact Real.lt_sqrt h
  constructor
  · simpa [activeMask] using or_congr_left hL
  · simpa [activeMask] using or_congr_left hR

/-- Claim C4 amended witness: with rest length 1 and left separation
vector (2, 0), squared distance 4 exceeds 1, and the mask entry is
equivalent to that strict comparison. -/
theorem sling_active_iff_sq_witness :
    (0 : ℝ) ≤ (1 : ℝ) ∧
    (((activeMask ⟨2, 0, 0, 0, 1, 0, 0, false, True⟩).getD 2 False ↔
      (1 : ℝ) ^ 2 < (2 : ℝ) ^ 2 + (0 : ℝ) ^ 2 ∨ (0 : ℝ) < 0) ∧
     ((activeMask ⟨2, 0, 0, 0, 1, 0, 0, false, True⟩).getD 3 False ↔
      (1 : ℝ) ^ 2 < (0 : ℝ) ^ 2 + (0 : ℝ) ^ 2 ∨ (0 : ℝ) < 0)) :=
  ⟨zero_le_one,
   sling_active_iff_sq ⟨2, 0, 0, 0, 1, 0, 0, false, True⟩ zero_le_one⟩

/-- Modelled from the spec: the ground contact indicator signals
penetration-or-touching, non-negative depth into the surface measured from
the body side.  The boolean onRail consumed by the selector is computed in
derivatives.ts, which is not part of the repository. -/
def onRailIndicator (depth : ℝ) : Prop := 0 ≤ depth

/-- Claim C5: the ground/rail mask entry holds exactly while the contact
indicator signals non-negative depth; the selector consumes onRail with
the stated polarity, not its negation. -/
theorem ground_active_iff_depth (DL0 DL1 DR0 DR1 len v12 v13 : ℝ)
    (wasReleased : Bool) (depth : ℝ) :
    (activeMask ⟨DL0, DL1, DR0, DR1, len, v12, v13, wasReleased,
        onRailIndicator depth⟩).getD 5 False ↔ 0 ≤ depth := by
  simp [activeMask, onRailIndicator]

/-- Modelled from the spec: the released flag is a one-way latch owned by
the caller's simulation state; a step may set it when the external release
condition fires but never clears it. -/
def stepReleased (released trigger : Bool) : Bool := released || trigger

/-- Claim C8: once released is true it stays true across any sequence of
further steps, and the projectile/bag contact mask entry is the negation
of released on every evaluation. -/
theorem released_latch_and_contact_mask :
    (∀ l : List Bool, List.foldl stepReleased true l = true) ∧
    (∀ s : SelInput, ((activeMask s).getD 4 False ↔ s.wasReleased = false)) := by
  constructor
  · intro l
    induction l with
    | nil => rfl
    | cons b t ih => simpa [stepReleased] using ih
  · intro s
    simp [activeMask]

/-! ## Dense linear solver

Modelled from the spec: the body of solveLinearSystem lives in
derivatives.ts, which is not part of the repository.  The spec describes
LU elimination with partial pivoting in which any pivot of magnitude below
a fixed floor is replaced by the signed floor, and failure only on
mismatched dimensions.  The clamp itself is source text: the re.sub call
in fix_physics_clean.py installs the line
if (Math.abs(pV) < 1e-18) U[i][i] = pV < 0 ? -1e-18 : 1e-18. -/

def pivotFloor : ℚ := 1 / 10 ^ 18

/-- Source (fix_physics_clean.py): the installed pivot clamp — a pivot of
magnitude below 1e-18 becomes -1e-18 when negative and 1e-18 otherwise. -/
def clampPivot (pV : ℚ) : ℚ :=
  if |pV| < pivotFloor then (if pV < 0 then -pivotFloor else pivotFloor)
  else pV

/-- Dot product of two lists, pairing positionally. -/
def dotList (a b : List ℚ) : ℚ :=
  ((a.zip b).map (fun ab => ab.1 * ab.2)).sum

/-- Modelled from the spec: partial pivoting — choose the row with the
largest leading magnitude; returns it and the remaining rows. -/
def pickPivotRow : List (List ℚ) → Option (List ℚ × List (List ℚ))
  | [] => none
  | r :: rs =>
    match pickPivotRow rs with
    | none => some (r, [])
    | some (best, rest) =>
      if |best.headD 0| > |r.headD 0| then some (best, r :: rest)
      else some (r, rs)

/-- Modelled from the spec: forward elimination with partial pivoting and
pivot clamping followed by back substitution, on rows augmented with the
right-hand side; the fuel argument is the system dimension. -/
def gaussSolve : ℕ → List (List ℚ) → List ℚ
  | 0, _ => []
  | fuel + 1, rows =>
    match pickPivotRow rows with
    | none => []
    | some (best, rest) =>
      let p := clampPivot (best.headD 0)
      let prow := best.tail.map (fun a => a / p)
      let elim := rest.map (fun row =>
        (row.tail.zip prow).map (fun ab => ab.1 - row.headD 0 * ab.2))
      let xs := gaussSolve fuel elim
      (prow.getLastD 0 - dotList prow.dropLast xs) :: xs

/-- Modelled from the spec: solve A x = b, failing only when the matrix is
not square of the size of b. -/
def solveLinearSystem (A : List (List ℚ)) (b : List ℚ) :
    Except String (List ℚ) :=
  if A.length = b.length ∧ (A.all (fun row => row.length = b.length)) = true
  then Except.ok (gaussSolve b.length
    ((A.zip b).map (fun rb => rb.1 ++ [rb.2])))
  else Except.error ("dimension mismatch")

/-- True when the solver produced a solution rather than an error. -/
def solverOk (e : Except String (List ℚ)) : Bool :=
  match e with
  | Except.ok _ => true
  | Except.error _ => false

/-- Claim C6: the solver signals failure exactly for mismatched input
dimensions (never for singularity), and the pivot clamp keeps every pivot
at magnitude at least 1e-18, preserves the pivot's sign, maps an exact
zero to +1e-18, and leaves pivots of magnitude at least 1e-18 unchanged. -/
theorem lu_solver_total_and_clamped (A : List (List ℚ)) (b : List ℚ)
    (pV : ℚ) :
    (solverOk (solveLinearSystem A b) = true ↔
      A.length = b.length ∧
        (A.all (fun row => row.length = b.length)) = true) ∧
    pivotFloor ≤ |clampPivot pV| ∧
    (pV < 0 → clampPivot pV < 0) ∧
    (0 ≤ pV → 0 < clampPivot pV) ∧
    clampPivot 0 = pivotFloor ∧
    (pivotFloor ≤ |pV| → clampPivot pV = pV) := by
  have hpf : (0 : ℚ) < pivotFloor := by norm_num [pivotFloor]
  refine ⟨?_, ?_, ?_, ?_, ?_, ?_⟩
  · unfold solveLinearSystem solverOk
    by_cases h : A.length = b.length ∧
        (A.all (fun row => row.length = b.length)) = true
    · rw [if_pos h]
      simpa using h
    · rw [if_neg h]
      simpa using h
  · unfold clampPivot
    by_cases h : |pV| < pivotFloor
    · rw [if_pos h]
      by_cases hneg : pV < 0
      · rw [if_pos hneg, abs_neg, abs_of_pos hpf]
      · rw [if_neg hneg, abs_of_pos hpf]
    · rw [if_neg h]
      exact le_of_not_lt h
  · intro hneg
    unfold clampPivot
    by_cases h : |pV| < pivotFloor
    · rw [if_pos h, if_pos hneg]
      exact neg_neg_of_pos hpf
    · rw [if_neg h]
      exact hneg
  · intro hpos
    unfold clampPivot
    by_cases h : |pV| < pivotFloor
    · rw [if_pos h, if_neg (not_lt.mpr hpos)]
      exact hpf
    · rw [if_neg h]
      rcases lt_or_eq_of_le hpos with h1 | h1
      · exact h1
      · exact absurd (by rw [← h1]; simpa using hpf) h
  · unfold clampPivot
    rw [if_pos (by simpa using hpf), if_neg (lt_irrefl 0)]
  · intro hge
    unfold clampPivot
    rw [if_neg (not_lt.mpr hge)]

/-- Claim C6 witness: the solver accepts the singular zero 2 by 2 system,
rejects a 2 by 1 mismatch, the clamp maps 0 to the positive floor and a
tiny negative pivot to a negative value of magnitude at least the floor. -/
theorem lu_solver_witness :
    solverOk (solveLinearSystem [[0, 0], [0, 0]] [1, 2]) = true ∧
    solverOk (solveLinearSystem [[1, 2]] [1]) = false ∧
    clampPivot 0 = pivotFloor ∧
    clampPivot (-1 / 10 ^ 20) < 0 ∧
    pivotFloor ≤ |clampPivot (-1 / 10 ^ 20)| := by
  refine ⟨?_, ?_, ?_, ?_, ?_⟩
  · exact (lu_solver_total_and_clamped [[0, 0], [0, 0]] [1, 2] 0).1.mpr
      (by decide)
  · by_contra hcon
    rw [Bool.not_eq_false] at hcon
    have h := (lu_solver_total_and_clamped [[1, 2]] [1] 0).1.mp hcon
    exact absurd h.2 (by decide)
  · exact (lu_solver_total_and_clamped [] [] 0).2.2.2.2.1
  · exact (lu_solver_total_and_clamped [] [] (-1 / 10 ^ 20)).2.2.1
      (by norm_num)
  · exact (lu_solver_total_and_clamped [] [] (-1 / 10 ^ 20)).2.1

/-! ## Module-level effects of the patch scripts

fix_sling.py consists, at module level, of an import, one function
definition (a second def of the same name replaces the first binding) and
a trailing comment; the call fix_file(...) that closes the other patch
scripts is absent.  Executing a Python module runs its top-level
statements; a def statement only binds a name and performs no I/O, and a
file is touched only by an actual call expression. -/

inductive FileOp where
  | readF (path : String)
  | writeF (path : String)
deriving DecidableEq, Repr

inductive PyStmt where
  | importModule (name : String)
  | defFun (name : String)
  | comment (text : String)
  | callFixFile (arg : String)
deriving DecidableEq, Repr

/-- File operations performed by one top-level statement: only a call of
fix_file touches the filesystem (its body opens its argument for reading
and then for writing); import, def and comment statements perform none. -/
def stmtFileOps : PyStmt → List FileOp
  | PyStmt.callFixFile arg => [FileOp.readF arg, FileOp.writeF arg]
  | _ => []

/-- Source: the top-level statements of fix_sling.py, in order — import
sys, the definition of fix_file, a closing comment; no call statement. -/
def fixSlingModule : List PyStmt :=
  [PyStmt.importModule ("sys"), PyStmt.defFun ("fix_file"),
   PyStmt.comment ("rewrite the relevant part of computeDerivatives")]

/-- Source: the top-level statements of fix_solver.py, which by contrast
does end with a call statement. -/
def fixSolverModule : List PyStmt :=
  [PyStmt.importModule ("sys"), PyStmt.defFun ("fix_file"),
   PyStmt.callFixFile ("src/physics/derivatives.ts")]

/-- Effects of executing a module as a script: the concatenated effects of
its top-level statements, in order. -/
def moduleFileOps (m : List PyStmt) : List FileOp :=
  (m.map stmtFileOps).flatten

/-- Claim C10: running fix_sling.py as a script performs no file
operation at all — each of its three top-level statements contributes an
empty effect list — while the otherwise-similar fix_solver.py, whose last
statement is the module-level call, reads and writes its target. -/
theorem fix_sling_runs_no_file_ops :
    moduleFileOps fixSlingModule = [] ∧
    fixSlingModule.map stmtFileOps = [[], [], []] ∧
    moduleFileOps fixSolverModule =
      [FileOp.readF ("src/physics/derivatives.ts"),
       FileOp.writeF ("src/physics/derivatives.ts")] :=
  ⟨rfl, rfl, rfl⟩

/-! ## Bias terms (fix_derivatives.py and fix_derivatives_v2.py)

fix_derivatives_v2.py rewrites gamma[2] (the left sling cable) as the kept
original line gamma[2] = -2 * (dvL[0] * dvL[0] + dvL[1] * dvL[1]) followed
by three += blocks: the tip centripetal contribution, the bag-attachment
centripetal contribution, and the Baumgarte feedback.  The geometry that
produces DL, dvL and the row J[2] lives in derivatives.ts; it is modelled
from the spec, with the attachment positions chosen so that the modelled
accelerations reproduce the centripetal expressions written out verbatim in
the patch (arm tip at angle th with flail offset at th + dl, bag attachment
at half-width W/2 from the bag center at angle ps). -/

structure SlingState where
  Lf : ℝ
  Lw : ℝ
  W : ℝ
  slingLength : ℝ
  alpha_b : ℝ
  beta_b : ℝ
  th : ℝ
  dl : ℝ
  ps : ℝ
  xB : ℝ
  yB : ℝ
  dth : ℝ
  ddl : ℝ
  dps : ℝ
  v5 : ℝ
  v6 : ℝ

/-- Modelled from the spec: horizontal component of the separation vector
DL, bag attachment minus arm tip. -/
noncomputable def DLx (s : SlingState) : ℝ :=
  (s.xB - s.W / 2 * Real.cos s.ps) -
    (s.Lf * Real.cos s.th + s.Lw * Real.cos (s.th + s.dl))

/-- Modelled from the spec: vertical component of the separation vector. -/
noncomputable def DLy (s : SlingState) : ℝ :=
  (s.yB - s.W / 2 * Real.sin s.ps) -
    (s.Lf * Real.sin s.th + s.Lw * Real.sin (s.th + s.dl))

/-- Modelled from the spec: horizontal relative velocity dvL[0], the time
derivative of DLx. -/
noncomputable def dvLx (s : SlingState) : ℝ :=
  s.v5 + s.W / 2 * Real.sin s.ps * s.dps + s.Lf * Real.sin s.th * s.dth +
    s.Lw * Real.sin (s.th + s.dl) * (s.dth + s.ddl)

/-- Modelled from the spec: vertical relative velocity dvL[1]. -/
noncomputable def dvLy (s : SlingState) : ℝ :=
  s.v6 - s.W / 2 * Real.cos s.ps * s.dps - s.Lf * Real.cos s.th * s.dth -
    s.Lw * Real.cos (s.th + s.dl) * (s.dth + s.ddl)

/-- Centripetal part of the second time derivative of DLx (the
acceleration of DLx when all generalized accelerations vanish). -/
noncomputable def ddvLx (s : SlingState) : ℝ :=
  s.W / 2 * Real.cos s.ps * s.dps ^ 2 + s.Lf * Real.cos s.th * s.dth ^ 2 +
    s.Lw * Real.cos (s.th + s.dl) * (s.dth + s.ddl) ^ 2

/-- Centripetal part of the second time derivative of DLy. -/
noncomputable def ddvLy (s : SlingState) : ℝ :=
  s.W / 2 * Real.sin s.ps * s.dps ^ 2 + s.Lf * Real.sin s.th * s.dth ^ 2 +
    s.Lw * Real.sin (s.th + s.dl) * (s.dth + s.ddl) ^ 2

/-- Modelled from the spec: J[2][0], the partial derivative of the
squared-distance residual with respect to th. -/
noncomputable def J20 (s : SlingState) : ℝ :=
  2 * (DLx s * (s.Lf * Real.sin s.th + s.Lw * Real.sin (s.th + s.dl)) +
    DLy s * (-(s.Lf * Real.cos s.th + s.Lw * Real.cos (s.th + s.dl))))

/-- Modelled from the spec: J[2][1], the partial with respect to dl. -/
noncomputable def J21 (s : SlingState) : ℝ :=
  2 * (DLx s * (s.Lw * Real.sin (s.th + s.dl)) +
    DLy s * (-(s.Lw * Real.cos (s.th + s.dl))))

/-- Modelled from the spec: J[2][5], the partial with respect to xB. -/
noncomputable def J25 (s : SlingState) : ℝ := 2 * DLx s

/-- Modelled from the spec: J[2][6], the partial with respect to yB. -/
noncomputable def J26 (s : SlingState) : ℝ := 2 * DLy s

/-- Modelled from the spec: J[2][7], the partial with respect to ps. -/
noncomputable def J27 (s : SlingState) : ℝ :=
  2 * (DLx s * (s.W / 2 * Real.sin s.ps) +
    DLy s * (-(s.W / 2 * Real.cos s.ps)))

/-- Position-level residual of the sling constraint, squared distance
minus squared rest length — the expression the source multiplies by
beta_b * beta_b. -/
noncomputable def Cres (s : SlingState) : ℝ := DLx s ^ 2 + DLy s ^ 2 - s.slingLength ^ 2

/-- First time derivative of Cres along the motion. -/
noncomputable def Cdot (s : SlingState) : ℝ := 2 * (DLx s * dvLx s + DLy s * dvLy s)

/-- Second time derivative of Cres along a motion with vanishing
generalized accelerations. -/
noncomputable def Cddot (s : SlingState) : ℝ :=
  2 * (dvLx s ^ 2 + DLx s * ddvLx s + dvLy s ^ 2 + DLy s * ddvLy s)

/-- Source (fix_derivatives_v2.py): the rebuilt gamma[2] — the kept line
gamma[2] = -2 * (dvL[0] * dvL[0] + dvL[1] * dvL[1]) (full text visible in
fix_derivatives.py), then the three appended += blocks in order: tip
centripetal, bag centripetal, and Baumgarte feedback through the row J[2]
and the squared-distance residual. -/
noncomputable def gamma2 (s : SlingState) : ℝ :=
  -2 * (dvLx s * dvLx s + dvLy s * dvLy s) +
  2 * (DLx s *
        (-s.Lf * Real.cos s.th * s.dth ^ 2 -
          s.Lw * Real.cos (s.th + s.dl) * (s.dth + s.ddl) ^ 2) +
       DLy s *
        (-s.Lf * Real.sin s.th * s.dth ^ 2 -
          s.Lw * Real.sin (s.th + s.dl) * (s.dth + s.ddl) ^ 2)) +
  -2 * (DLx s * (s.W / 2 * Real.cos s.ps * s.dps ^ 2) +
        DLy s * (s.W / 2 * Real.sin s.ps * s.dps ^ 2)) +
  (-2 * s.alpha_b *
      (J20 s * s.dth + J21 s * s.ddl + J25 s * s.v5 + J26 s * s.v6 +
        J27 s * s.dps) -
    s.beta_b * s.beta_b * (DLx s ^ 2 + DLy s ^ 2 - s.slingLength ^ 2))

/-- Source (fix_derivatives_v2.py): gamma[0] += -2 * alpha_b * (J[0][0] *
dth + J[0][2] * q_dot[2] + J[0][4] * dph) - beta_b * beta_b * pos_C0 — the
Baumgarte feedback appended to the previously computed centripetal value
g0 of gamma[0] (fix_derivatives.py removed the older form that overwrote
gamma[0] with -gamma[0] - ...). -/
noncomputable def gamma0upd (g0 alpha_b beta_b j00 dth j02 qd2 j04 dph posC0 : ℝ) : ℝ :=
  g0 + (-2 * alpha_b * (j00 * dth + j02 * qd2 + j04 * dph) -
    beta_b * beta_b * posC0)

/-- State moved along the free trajectory in which every generalized
coordinate advances linearly at its current velocity (so all generalized
accelerations vanish identically). -/
noncomputable def stateAt (s : SlingState) (t : ℝ) : SlingState :=
  { s with
    th := s.th + s.dth * t
    dl := s.dl + s.ddl * t
    ps := s.ps + s.dps * t
    xB := s.xB + s.v5 * t
    yB := s.yB + s.v6 * t }

theorem hasDerivAt_val_congr {f : ℝ → ℝ} {v w u : ℝ} (h : HasDerivAt f v u)
    (hvw : v = w) : HasDerivAt f w u := hvw ▸ h

theorem hasDerivAt_linear (a b u : ℝ) : HasDerivAt (fun r => a + b * r) b u := by
  simpa using ((hasDerivAt_id u).const_mul b).const_add a

theorem hasDerivAt_DLx (s : SlingState) (u : ℝ) :
    HasDerivAt (fun r => DLx (stateAt s r)) (dvLx (stateAt s u)) u := by
  have H := ((hasDerivAt_linear s.xB s.v5 u).sub
      (((hasDerivAt_linear s.ps s.dps u).cos).const_mul (s.W / 2))).sub
      ((((hasDerivAt_linear s.th s.dth u).cos).const_mul s.Lf).add
        ((((hasDerivAt_linear s.th s.dth u).add
            (hasDerivAt_linear s.dl s.ddl u)).cos).const_mul s.Lw))
  exact hasDerivAt_val_congr H (by simp only [dvLx, stateAt]; ring)

theorem hasDerivAt_DLy (s : SlingState) (u : ℝ) :
    HasDerivAt (fun r => DLy (stateAt s r)) (dvLy (stateAt s u)) u := by
  have H := ((hasDerivAt_linear s.yB s.v6 u).sub
      (((hasDerivAt_linear s.ps s.dps u).sin).const_mul (s.W / 2))).sub
      ((((hasDerivAt_linear s.th s.dth u).sin).const_mul s.Lf).add
        ((((hasDerivAt_linear s.th s.dth u).add
            (hasDerivAt_linear s.dl s.ddl u)).sin).const_mul s.Lw))
  exact hasDerivAt_val_congr H (by simp only [dvLy, stateAt]; ring)

theorem hasDerivAt_dvLx (s : SlingState) (u : ℝ) :
    HasDerivAt (fun r => dvLx (stateAt s r)) (ddvLx (stateAt s u)) u := by
  have H := (((hasDerivAt_const u s.v5).add
      ((((hasDerivAt_linear s.ps s.dps u).sin).const_mul
        (s.W / 2)).mul_const s.dps)).add
      ((((hasDerivAt_linear s.th s.dth u).sin).const_mul
        s.Lf).mul_const s.dth)).add
      (((((hasDerivAt_linear s.th s.dth u).add
          (hasDerivAt_linear s.dl s.ddl u)).sin).const_mul
        s.Lw).mul_const (s.dth + s.ddl))
  exact hasDerivAt_val_congr H (by simp only [ddvLx, stateAt]; ring)

theorem hasDerivAt_dvLy (s : SlingState) (u : ℝ) :
    HasDerivAt (fun r => dvLy (stateAt s r)) (ddvLy (stateAt s u)) u := by
  have H := (((hasDerivAt_const u s.v6).sub
      ((((hasDerivAt_linear s.ps s.dps u).cos).const_mul
        (s.W / 2)).mul_const s.dps)).sub
      ((((hasDerivAt_linear s.th s.dth u).cos).const_mul
        s.Lf).mul_const s.dth)).sub
      (((((hasDerivAt_linear s.th s.dth u).add
          (hasDerivAt_linear s.dl s.ddl u)).cos).const_mul
        s.Lw).mul_const (s.dth + s.ddl))
  exact hasDerivAt_val_congr H (by simp only [ddvLy, stateAt]; ring)

theorem hasDerivAt_Cres (s : SlingState) (u : ℝ) :
    HasDerivAt (fun r => Cres (stateAt s r)) (Cdot (stateAt s u)) u := by
  have H := (((hasDerivAt_DLx s u).pow 2).add
      ((hasDerivAt_DLy s u).pow 2)).sub_const (s.slingLength ^ 2)
  exact hasDerivAt_val_congr H (by simp only [Cdot]; push_cast; ring)

theorem hasDerivAt_Cdot (s : SlingState) (u : ℝ) :
    HasDerivAt (fun r => Cdot (stateAt s r)) (Cddot (stateAt s u)) u := by
  have H := (((hasDerivAt_DLx s u).mul (hasDerivAt_dvLx s u)).add
      ((hasDerivAt_DLy s u).mul (hasDerivAt_dvLy s u))).const_mul 2
  exact hasDerivAt_val_congr H (by simp only [Cddot]; ring)

/-- Pure algebra: the source text of gamma[2] equals the Baumgarte form
written with the centripetal, velocity and position quantities. -/
theorem gamma2_eq_formula (s : SlingState) :
    gamma2 s = -(Cddot s) - 2 * s.alpha_b * Cdot s -
      s.beta_b * s.beta_b * Cres s := by
  simp only [gamma2, Cddot, Cdot, Cres, J20, J21, J25, J26, J27, ddvLx,
    ddvLy, dvLx, dvLy, DLx, DLy]
  ring

/-! ### The right sling cable, gamma[3]

The left attachment fixed by the gamma[2] source text is the rigid bag
point center - (W/2)(cos ps, sin ps); the mirror attachment of the same
rigid body is center + (W/2)(cos ps, sin ps), and that choice is forced:
a rigid point at body-frame offset (W/2, 0) moves to
center + (W/2)(cos ps, sin ps) under rotation by ps.  Under this geometry
the gamma[3] text of fix_derivatives_v2.py (lines 96-99) does not satisfy
the Baumgarte formula: its bag-centripetal y-term carries (W/2) sin ps
where the second derivative of DR carries -(W/2) sin ps, leaving the gap
-2 W DR[1] sin(ps) dps^2 proved below. -/

/-- Modelled from the spec: horizontal component of the right separation
vector DR, mirror bag attachment minus arm tip. -/
noncomputable def DRx (s : SlingState) : ℝ :=
  (s.xB + s.W / 2 * Real.cos s.ps) -
    (s.Lf * Real.cos s.th + s.Lw * Real.cos (s.th + s.dl))

/-- Modelled from the spec: vertical component of DR. -/
noncomputable def DRy (s : SlingState) : ℝ :=
  (s.yB + s.W / 2 * Real.sin s.ps) -
    (s.Lf * Real.sin s.th + s.Lw * Real.sin (s.th + s.dl))

/-- Modelled from the spec: horizontal relative velocity dvR[0], the time
derivative of DRx. -/
noncomputable def dvRx (s : SlingState) : ℝ :=
  s.v5 - s.W / 2 * Real.sin s.ps * s.dps + s.Lf * Real.sin s.th * s.dth +
    s.Lw * Real.sin (s.th + s.dl) * (s.dth + s.ddl)

/-- Modelled from the spec: vertical relative velocity dvR[1]. -/
noncomputable def dvRy (s : SlingState) : ℝ :=
  s.v6 + s.W / 2 * Real.cos s.ps * s.dps - s.Lf * Real.cos s.th * s.dth -
    s.Lw * Real.cos (s.th + s.dl) * (s.dth + s.ddl)

/-- Centripetal part of the second time derivative of DRx. -/
noncomputable def ddvRx (s : SlingState) : ℝ :=
  -(s.W / 2) * Real.cos s.ps * s.dps ^ 2 + s.Lf * Real.cos s.th * s.dth ^ 2 +
    s.Lw * Real.cos (s.th + s.dl) * (s.dth + s.ddl) ^ 2

/-- Centripetal part of the second time derivative of DRy. -/
noncomputable def ddvRy (s : SlingState) : ℝ :=
  -(s.W / 2) * Real.sin s.ps * s.dps ^ 2 + s.Lf * Real.sin s.th * s.dth ^ 2 +
    s.Lw * Real.sin (s.th + s.dl) * (s.dth + s.ddl) ^ 2

/-- Modelled from the spec: J[3][0], the partial of the right
squared-distance residual with respect to th. -/
noncomputable def J30 (s : SlingState) : ℝ :=
  2 * (DRx s * (s.Lf * Real.sin s.th + s.Lw * Real.sin (s.th + s.dl)) +
    DRy s * (-(s.Lf * Real.cos s.th + s.Lw * Real.cos (s.th + s.dl))))

/-- Modelled from the spec: J[3][1], the partial with respect to dl. -/
noncomputable def J31 (s : SlingState) : ℝ :=
  2 * (DRx s * (s.Lw * Real.sin (s.th + s.dl)) +
    DRy s * (-(s.Lw * Real.cos (s.th + s.dl))))

/-- Modelled from the spec: J[3][5], the partial with respect to xB. -/
noncomputable def J35 (s : SlingState) : ℝ := 2 * DRx s

/-- Modelled from the spec: J[3][6], the partial with respect to yB. -/
noncomputable def J36 (s : SlingState) : ℝ := 2 * DRy s

/-- Modelled from the spec: J[3][7], the partial with respect to ps. -/
noncomputable def J37 (s : SlingState) : ℝ :=
  2 * (DRx s * (-(s.W / 2 * Real.sin s.ps)) +
    DRy s * (s.W / 2 * Real.cos s.ps))

/-- Position-level residual of the right sling constraint. -/
noncomputable def CresR (s : SlingState) : ℝ :=
  DRx s ^ 2 + DRy s ^ 2 - s.slingLength ^ 2

/-- First time derivative of CresR along the motion. -/
noncomputable def CdotR (s : SlingState) : ℝ :=
  2 * (DRx s * dvRx s + DRy s * dvRy s)

/-- Second time derivative of CresR along a motion with vanishing
generalized accelerations. -/
noncomputable def CddotR (s : SlingState) : ℝ :=
  2 * (dvRx s ^ 2 + DRx s * ddvRx s + dvRy s ^ 2 + DRy s * ddvRy s)

/-- Source (fix_derivatives_v2.py): the rebuilt gamma[3] — the kept line
gamma[3] = -2 * (dvR[0] * dvR[0] + dvR[1] * dvR[1]) (full text visible in
fix_derivatives.py), then the three appended += blocks: tip centripetal,
bag centripetal with x-coefficient -W/2 and y-coefficient +W/2, and the
Baumgarte feedback through J[3] and the squared-distance residual. -/
noncomputable def gamma3 (s : SlingState) : ℝ :=
  -2 * (dvRx s * dvRx s + dvRy s * dvRy s) +
  2 * (DRx s *
        (-s.Lf * Real.cos s.th * s.dth ^ 2 -
          s.Lw * Real.cos (s.th + s.dl) * (s.dth + s.ddl) ^ 2) +
       DRy s *
        (-s.Lf * Real.sin s.th * s.dth ^ 2 -
          s.Lw * Real.sin (s.th + s.dl) * (s.dth + s.ddl) ^ 2)) +
  -2 * (DRx s * (-s.W / 2 * Real.cos s.ps * s.dps ^ 2) +
        DRy s * (s.W / 2 * Real.sin s.ps * s.dps ^ 2)) +
  (-2 * s.alpha_b *
      (J30 s * s.dth + J31 s * s.ddl + J35 s * s.v5 + J36 s * s.v6 +
        J37 s * s.dps) -
    s.beta_b * s.beta_b * (DRx s ^ 2 + DRy s ^ 2 - s.slingLength ^ 2))

/-- Amount by which the source gamma[3] misses the Baumgarte formula: the
sign slip of the bag-centripetal y-term. -/
noncomputable def gamma3gap (s : SlingState) : ℝ :=
  -2 * s.W * DRy s * Real.sin s.ps * s.dps ^ 2

theorem hasDerivAt_DRx (s : SlingState) (u : ℝ) :
    HasDerivAt (fun r => DRx (stateAt s r)) (dvRx (stateAt s u)) u := by
  have H := ((hasDerivAt_linear s.xB s.v5 u).add
      (((hasDerivAt_linear s.ps s.dps u).cos).const_mul (s.W / 2))).sub
      ((((hasDerivAt_linear s.th s.dth u).cos).const_mul s.Lf).add
        ((((hasDerivAt_linear s.th s.dth u).add
            (hasDerivAt_linear s.dl s.ddl u)).cos).const_mul s.Lw))
  exact hasDerivAt_val_congr H (by simp only [dvRx, stateAt]; ring)

theorem hasDerivAt_DRy (s : SlingState) (u : ℝ) :
    HasDerivAt (fun r => DRy (stateAt s r)) (dvRy (stateAt s u)) u := by
  have H := ((hasDerivAt_linear s.yB s.v6 u).add
      (((hasDerivAt_linear s.ps s.dps u).sin).const_mul (s.W / 2))).sub
      ((((hasDerivAt_linear s.th s.dth u).sin).const_mul s.Lf).add
        ((((hasDerivAt_linear s.th s.dth u).add
            (hasDerivAt_linear s.dl s.ddl u)).sin).const_mul s.Lw))
  exact hasDerivAt_val_congr H (by simp only [dvRy, stateAt]; ring)

theorem hasDerivAt_dvRx (s : SlingState) (u : ℝ) :
    HasDerivAt (fun r => dvRx (stateAt s r)) (ddvRx (stateAt s u)) u := by
  have H := (((hasDerivAt_const u s.v5).sub
      ((((hasDerivAt_linear s.ps s.dps u).sin).const_mul
        (s.W / 2)).mul_const s.dps)).add
      ((((hasDerivAt_linear s.th s.dth u).sin).const_mul
        s.Lf).mul_const s.dth)).add
      (((((hasDerivAt_linear s.th s.dth u).add
          (hasDerivAt_linear s.dl s.ddl u)).sin).const_mul
        s.Lw).mul_const (s.dth + s.ddl))
  exact hasDerivAt_val_congr H (by simp only [ddvRx, stateAt]; ring)

theorem hasDerivAt_dvRy (s : SlingState) (u : ℝ) :
    HasDerivAt (fun r => dvRy (stateAt s r)) (ddvRy (stateAt s u)) u := by
  have H := (((hasDerivAt_const u s.v6).add
      ((((hasDerivAt_linear s.ps s.dps u).cos).const_mul
        (s.W / 2)).mul_const s.dps)).sub
      ((((hasDerivAt_linear s.th s.dth u).cos).const_mul
        s.Lf).mul_const s.dth)).sub
      (((((hasDerivAt_linear s.th s.dth u).add
          (hasDerivAt_linear s.dl s.ddl u)).cos).const_mul
        s.Lw).mul_const (s.dth + s.ddl))
  exact hasDerivAt_val_congr H (by simp only [ddvRy, stateAt]; ring)

theorem hasDerivAt_CresR (s : SlingState) (u : ℝ) :
    HasDerivAt (fun r => CresR (stateAt s r)) (CdotR (stateAt s u)) u := by
  have H := (((hasDerivAt_DRx s u).pow 2).add
      ((hasDerivAt_DRy s u).pow 2)).sub_const (s.slingLength ^ 2)
  exact hasDerivAt_val_congr H (by simp only [CdotR]; push_cast; ring)

theorem hasDerivAt_CdotR (s : SlingState) (u : ℝ) :
    HasDerivAt (fun r => CdotR (stateAt s r)) (CddotR (stateAt s u)) u := by
  have H := (((hasDerivAt_DRx s u).mul (hasDerivAt_dvRx s u)).add
      ((hasDerivAt_DRy s u).mul (hasDerivAt_dvRy s u))).const_mul 2
  exact hasDerivAt_val_congr H (by simp only [CddotR]; ring)

/-- Pure algebra: the source text of gamma[3] misses the Baumgarte form by
exactly the gap term. -/
theorem gamma3_eq_formula (s : SlingState) :
    gamma3 s = -(CddotR s) - 2 * s.alpha_b * CdotR s -
      s.beta_b * s.beta_b * CresR s + gamma3gap s := by
  simp only [gamma3, gamma3gap, CddotR, CdotR, CresR, J30, J31, J35, J36,
    J37, ddvRx, ddvRy, dvRx, dvRy, DRx, DRy]
  ring

/-! ### The projectile/bag contact constraint, gamma[4]

Both endpoints of this constraint are body centers (coordinates 5, 6 and
8, 9 directly), so the distance vector DB is linear in the coordinates and
the only velocity-dependent term of the second derivative is -2 |dvB|^2 —
there are no trigonometric centripetal contributions. -/

structure BagState where
  R_eff : ℝ
  alpha_b : ℝ
  beta_b : ℝ
  xB : ℝ
  yB : ℝ
  xP : ℝ
  yP : ℝ
  v5 : ℝ
  v6 : ℝ
  v8 : ℝ
  v9 : ℝ

/-- Modelled from the spec: horizontal component of DB, bag center minus
projectile position. -/
def DBx (b : BagState) : ℝ := b.xB - b.xP

/-- Modelled from the spec: vertical component of DB. -/
def DBy (b : BagState) : ℝ := b.yB - b.yP

/-- Relative velocity dvB[0]. -/
def dvBx (b : BagState) : ℝ := b.v5 - b.v8

/-- Relative velocity dvB[1]. -/
def dvBy (b : BagState) : ℝ := b.v6 - b.v9

/-- Modelled from the spec: J[4][5], the partial of the contact residual
with respect to coordinate 5. -/
def J45 (b : BagState) : ℝ := 2 * DBx b

/-- Modelled from the spec: J[4][6]. -/
def J46 (b : BagState) : ℝ := 2 * DBy b

/-- Modelled from the spec: J[4][8]. -/
def J48 (b : BagState) : ℝ := -2 * DBx b

/-- Modelled from the spec: J[4][9]. -/
def J49 (b : BagState) : ℝ := -2 * DBy b

/-- Position-level residual of the contact constraint, the expression the
source multiplies by beta_b * beta_b. -/
def CresB (b : BagState) : ℝ := DBx b ^ 2 + DBy b ^ 2 - b.R_eff * b.R_eff

/-- First time derivative of CresB along the motion. -/
def CdotB (b : BagState) : ℝ := 2 * (DBx b * dvBx b + DBy b * dvBy b)

/-- Second time derivative of CresB along a motion with vanishing
generalized accelerations. -/
def CddotB (b : BagState) : ℝ := 2 * (dvBx b ^ 2 + dvBy b ^ 2)

/-- Source (fix_derivatives_v2.py): the rebuilt gamma[4] — the kept line
gamma[4] = -2 * (dvB[0] * dvB[0] + dvB[1] * dvB[1]), then the appended
Baumgarte block through J[4] and the residual DB[0]^2 + DB[1]^2 -
R_eff * R_eff. -/
def gamma4 (b : BagState) : ℝ :=
  -2 * (dvBx b * dvBx b + dvBy b * dvBy b) +
  (-2 * b.alpha_b *
      (J45 b * b.v5 + J46 b * b.v6 + J48 b * b.v8 + J49 b * b.v9) -
    b.beta_b * b.beta_b * (DBx b ^ 2 + DBy b ^ 2 - b.R_eff * b.R_eff))

/-- Contact state moved along the free trajectory (all four coordinates
advance linearly, accelerations zero). -/
def stateAtB (b : BagState) (t : ℝ) : BagState :=
  { b with
    xB := b.xB + b.v5 * t
    yB := b.yB + b.v6 * t
    xP := b.xP + b.v8 * t
    yP := b.yP + b.v9 * t }

theorem hasDerivAt_DBx (b : BagState) (u : ℝ) :
    HasDerivAt (fun r => DBx (stateAtB b r)) (dvBx (stateAtB b u)) u := by
  have H := (hasDerivAt_linear b.xB b.v5 u).sub (hasDerivAt_linear b.xP b.v8 u)
  exact hasDerivAt_val_congr H (by simp only [dvBx, stateAtB])

theorem hasDerivAt_DBy (b : BagState) (u : ℝ) :
    HasDerivAt (fun r => DBy (stateAtB b r)) (dvBy (stateAtB b u)) u := by
  have H := (hasDerivAt_linear b.yB b.v6 u).sub (hasDerivAt_linear b.yP b.v9 u)
  exact hasDerivAt_val_congr H (by simp only [dvBy, stateAtB])

theorem hasDerivAt_CresB (b : BagState) (u : ℝ) :
    HasDerivAt (fun r => CresB (stateAtB b r)) (CdotB (stateAtB b u)) u := by
  have H := (((hasDerivAt_DBx b u).pow 2).add
      ((hasDerivAt_DBy b u).pow 2)).sub_const (b.R_eff * b.R_eff)
  exact hasDerivAt_val_congr H (by simp only [CdotB]; push_cast; ring)

theorem hasDerivAt_CdotB (b : BagState) (u : ℝ) :
    HasDerivAt (fun r => CdotB (stateAtB b r)) (CddotB (stateAtB b u)) u := by
  have H := (((hasDerivAt_DBx b u).mul_const (b.v5 - b.v8)).add
      ((hasDerivAt_DBy b u).mul_const (b.v6 - b.v9))).const_mul 2
  exact hasDerivAt_val_congr H
    (by simp only [CddotB, dvBx, dvBy, stateAtB]; ring)

/-- Pure algebra: the source text of gamma[4] equals the Baumgarte form. -/
theorem gamma4_eq_formula (b : BagState) :
    gamma4 b = -(CddotB b) - 2 * b.alpha_b * CdotB b -
      b.beta_b * b.beta_b * CresB b := by
  simp only [gamma4, CddotB, CdotB, CresB, J45, J46, J48, J49, dvBx, dvBy,
    DBx, DBy]
  ring

/-- Source (fix_derivatives_v2.py): gamma[1] += -2 * alpha_b * (J[1][0] *
dth + J[1][3] * q_dot[3] + J[1][4] * dph) - beta_b * beta_b * pos_C1 — the
Baumgarte feedback appended to the previously computed centripetal value
g1 of gamma[1]. -/
def gamma1upd (g1 alpha_b beta_b j10 dth j13 qd3 j14 dph posC1 : ℝ) : ℝ :=
  g1 + (-2 * alpha_b * (j10 * dth + j13 * qd3 + j14 * dph) -
    beta_b * beta_b * posC1)

/-- Right-sling state exhibiting the gamma[3] sign slip: both arm lengths
zero (tip pinned at the origin), bag width 2, attachment at angle pi/2
from the bag center at the origin, unit angular velocity, all gains zero.
The attachment moves on the unit circle around the pinned tip, so the
squared distance is constant in time and every derivative of CresR
vanishes, yet gamma[3] evaluates to -4. -/
noncomputable def s0R : SlingState :=
  ⟨0, 0, 2, 0, 0, 0, 0, 0, Real.pi / 2, 0, 0, 0, 0, 1, 0, 0⟩

/-- Claim C7 counterexample: the rebuilt gamma[3] does not satisfy the
Baumgarte identity gamma[c] = -(d2 C/dt2) - 2 alpha_b (dC/dt) -
beta_b^2 C: at the circular-motion state s0R every term on the right is
zero while gamma[3] is -4, because the bag-centripetal y-term of gamma[3]
carries +W/2 where the rigid mirror attachment requires -W/2. -/
theorem gamma3_formula_cex :
    gamma3 (stateAt s0R 0) ≠
      -(deriv (deriv (fun u => CresR (stateAt s0R u))) 0) -
        2 * s0R.alpha_b * deriv (fun u => CresR (stateAt s0R u)) 0 -
        s0R.beta_b * s0R.beta_b * CresR (stateAt s0R 0) := by
  have h0 : deriv (fun u => CresR (stateAt s0R u)) 0 =
      CdotR (stateAt s0R 0) := (hasDerivAt_CresR s0R 0).deriv
  have h1 : deriv (fun u => CresR (stateAt s0R u)) =
      fun u => CdotR (stateAt s0R u) :=
    funext fun u => (hasDerivAt_CresR s0R u).deriv
  have h2 : deriv (fun u => CdotR (stateAt s0R u)) 0 =
      CddotR (stateAt s0R 0) := (hasDerivAt_CdotR s0R 0).deriv
  rw [h0, h1, h2]
  have hg : gamma3 (stateAt s0R 0) = -4 := by
    simp [gamma3, dvRx, dvRy, DRx, DRy, J30, J31, J35, J36, J37, stateAt,
      s0R, Real.cos_pi_div_two, Real.sin_pi_div_two]
    norm_num
  have hc : CddotR (stateAt s0R 0) = 0 := by
    simp [CddotR, dvRx, dvRy, DRx, DRy, ddvRx, ddvRy, stateAt, s0R,
      Real.cos_pi_div_two, Real.sin_pi_div_two]
  rw [hg, hc]
  have ha : s0R.alpha_b = 0 := rfl
  have hb : s0R.beta_b = 0 := rfl
  rw [ha, hb]
  norm_num

/-- Claim C7 (amended): the left-sling bias gamma[2] and the contact bias
gamma[4], exactly as rebuilt by fix_derivatives_v2.py, equal
-(d2 C / dt2) - 2 alpha_b (dC/dt) - beta_b^2 C along every free trajectory
(generalized accelerations zero, so the second time derivative of C is
exactly (dJ/dt) dot q_dot and dC/dt is J dot q_dot); the hinge updates
gamma[0] and gamma[1] append the Baumgarte terms to the centripetal value,
never substituted or sign-flipped; the right-sling gamma[3] misses the
same identity by exactly -2 W DR[1] sin(ps) dps^2, the sign slip of its
bag-centripetal y-term. -/
theorem gamma_bias_is_baumgarte :
    (∀ (s : SlingState) (t : ℝ),
      gamma2 (stateAt s t) =
        -(deriv (deriv (fun u => Cres (stateAt s u))) t) -
          2 * s.alpha_b * deriv (fun u => Cres (stateAt s u)) t -
          s.beta_b * s.beta_b * Cres (stateAt s t)) ∧
    (∀ (b : BagState) (t : ℝ),
      gamma4 (stateAtB b t) =
        -(deriv (deriv (fun u => CresB (stateAtB b u))) t) -
          2 * b.alpha_b * deriv (fun u => CresB (stateAtB b u)) t -
          b.beta_b * b.beta_b * CresB (stateAtB b t)) ∧
    (∀ (s : SlingState) (t : ℝ),
      gamma3 (stateAt s t) =
        -(deriv (deriv (fun u => CresR (stateAt s u))) t) -
          2 * s.alpha_b * deriv (fun u => CresR (stateAt s u)) t -
          s.beta_b * s.beta_b * CresR (stateAt s t) +
          gamma3gap (stateAt s t)) ∧
    (∀ g0 alpha_b beta_b j00 dth j02 qd2 j04 dph posC0 : ℝ,
      gamma0upd g0 alpha_b beta_b j00 dth j02 qd2 j04 dph posC0 =
        g0 - 2 * alpha_b * (j00 * dth + j02 * qd2 + j04 * dph) -
          beta_b * beta_b * posC0) ∧
    (∀ g1 alpha_b beta_b j10 dth j13 qd3 j14 dph posC1 : ℝ,
      gamma1upd g1 alpha_b beta_b j10 dth j13 qd3 j14 dph posC1 =
        g1 - 2 * alpha_b * (j10 * dth + j13 * qd3 + j14 * dph) -
          beta_b * beta_b * posC1) := by
  refine ⟨?_, ?_, ?_, ?_, ?_⟩
  · intro s t
    have h0 : deriv (fun u => Cres (stateAt s u)) t = Cdot (stateAt s t) :=
      (hasDerivAt_Cres s t).deriv
    have h1 : deriv (fun u => Cres (stateAt s u)) =
        fun u => Cdot (stateAt s u) :=
      funext fun u => (hasDerivAt_Cres s u).deriv
    have h2 : deriv (fun u => Cdot (stateAt s u)) t = Cddot (stateAt s t) :=
      (hasDerivAt_Cdot s t).deriv
    rw [h0, h1, h2]
    exact gamma2_eq_formula (stateAt s t)
  · intro b t
    have h0 : deriv (fun u => CresB (stateAtB b u)) t =
        CdotB (stateAtB b t) := (hasDerivAt_CresB b t).deriv
    have h1 : deriv (fun u => CresB (stateAtB b u)) =
        fun u => CdotB (stateAtB b u) :=
      funext fun u => (hasDerivAt_CresB b u).deriv
    have h2 : deriv (fun u => CdotB (stateAtB b u)) t =
        CddotB (stateAtB b t) := (hasDerivAt_CdotB b t).deriv
    rw [h0, h1, h2]
    exact gamma4_eq_formula (stateAtB b t)
  · intro s t
    have h0 : deriv (fun u => CresR (stateAt s u)) t =
        CdotR (stateAt s t) := (hasDerivAt_CresR s t).deriv
    have h1 : deriv (fun u => CresR (stateAt s u)) =
        fun u => CdotR (stateAt s u) :=
      funext fun u => (hasDerivAt_CresR s u).deriv
    have h2 : deriv (fun u => CdotR (stateAt s u)) t =
        CddotR (stateAt s t) := (hasDerivAt_CdotR s t).deriv
    rw [h0, h1, h2]
    exact gamma3_eq_formula (stateAt s t)
  · intro g0 alpha_b beta_b j00 dth j02 qd2 j04 dph posC0
    unfold gamma0upd
    ring
  · intro g1 alpha_b beta_b j10 dth j13 qd3 j14 dph posC1
    unfold gamma1upd
    ring

end Catapult
